import Mathlib

/-!
# Verification of the mcdig mDNS lookup utility

A shallow embedding, in Lean 4, of the parts of the `mcdig` Go program
(an mDNS "dig"-like client) needed to settle the specification claims:

* the response aggregator (`ResponseInput` / `responseAppend` /
  `ResponseGet` and the dedup discipline over the three record sections);
* the report renderer (`ResponsePrint`);
* local address discovery (`IfAddrs`) with its loopback / link-local /
  family filters;
* the query coordinator's send loop and question builder
  (`QueryRun` send phase and `queryNewRequest`);
* command-line parsing (`optParse` / `usage` / `usageError`) at the level
  of process exit outcomes.

Go slices that the program distinguishes by nil-ness are embedded as
`Option (List _)` (`none` = nil slice, `some l` = non-nil slice with
elements `l`). Go `uint16` fields are embedded as `Nat` (all values
produced by the wire parser are below 2^16). External library functions
(from `miekg/dns` and the Go standard library) that the program calls
are embedded from their documented behaviour, as noted at each
definition.
-/

namespace Mcdig

/-! ## Resource records (model of `dns.RR`) -/

/-- A resource record, as the aggregator observes it: whether it is an
OPT pseudo-record, its class field (a 16-bit value on the wire; mDNS
overlays the "unicast-response" flag on bit 15), and the rest of the
record (name, type, TTL, rdata) abstracted into a single `body`
component. Structural equality of records is equality of this
structure. -/
structure RR where
  isOPT : Bool
  rrClass : Nat
  body : Nat
deriving DecidableEq, Repr

/-- Helper for `dedup`: drop every element already in `seen`, keep the
first occurrence of each remaining element. -/
def dedupAux {α : Type} [DecidableEq α] (seen : List α) : List α → List α
  | [] => []
  | x :: xs =>
    if x ∈ seen then dedupAux seen xs
    else x :: dedupAux (x :: seen) xs

/-- Model of the library call `dns.Dedup(section, nil)` as the spec
describes it: deduplicate using structural equality, keeping the first
occurrence of each record and dropping later duplicates. -/
def dedup {α : Type} [DecidableEq α] (l : List α) : List α := dedupAux [] l

/-- Clearing of the mDNS "unicast-response" flag:
`rr2.Header().Class &^= 1 << 15` on the 16-bit class field. -/
def clearUnicastBit (c : Nat) : Nat := c &&& 32767

/-- The per-record normalization performed by `responseAppend`:
`dns.Copy(rr)` (a value copy) followed by clearing bit 15 of the
class field. -/
def rrClean (rr : RR) : RR := { rr with rrClass := clearUnicastBit rr.rrClass }

/-- Model of `responseAppend sec data`: for each record of `data`, skip OPT
pseudo-records, copy the record, clear the unicast-response bit and
append it to `sec`; finally `dns.Dedup` the whole section. -/
def responseAppend (sec data : List RR) : List RR :=
  dedup (sec ++ (data.filter (fun rr => !rr.isOPT)).map rrClean)

/-- The three collected sections (the `rspAnswer`, `rspAuthority` and
`rspAdditional` package-level variables). -/
structure RspState where
  rspAnswer : List RR
  rspAuthority : List RR
  rspAdditional : List RR
deriving DecidableEq, Repr

/-- The initial (empty) state of the package-level section variables. -/
def initRspState : RspState := ⟨[], [], []⟩

/-- An inbound DNS message as the aggregator sees it: its three record
sections (`rsp.Answer`, `rsp.Ns`, `rsp.Extra`). -/
structure Msg where
  answer : List RR
  ns : List RR
  extra : List RR
deriving DecidableEq, Repr

/-- Model of `ResponseInput`: the sequential update of the three package-level
sections. Note that the Go source assigns `rspAnswer` first and then
passes the *updated* `rspAnswer` — not `rspAuthority` — as the section
accumulator of the authority update
(`rspAuthority = responseAppend(rspAnswer, rsp.Ns)`). -/
def ResponseInput (st : RspState) (rsp : Msg) : RspState :=
  let ans := responseAppend st.rspAnswer rsp.answer
  let auth := responseAppend ans rsp.ns
  let add := responseAppend st.rspAdditional rsp.extra
  ⟨ans, auth, add⟩

/-- Folding a sequence of inbound messages through `ResponseInput`,
starting from the empty initial state. -/
def runResponseInputs (msgs : List Msg) : RspState :=
  msgs.foldl ResponseInput initRspState

/-- A record is "clean" when it is not an OPT pseudo-record and the
mDNS unicast-response bit (bit 15 of the class field) is clear. -/
def rrIsClean (rr : RR) : Prop :=
  rr.isOPT = false ∧ rr.rrClass.testBit 15 = false

/-- All records of all three stored sections are clean. -/
def stateClean (st : RspState) : Prop :=
  (∀ rr ∈ st.rspAnswer, rrIsClean rr) ∧
  (∀ rr ∈ st.rspAuthority, rrIsClean rr) ∧
  (∀ rr ∈ st.rspAdditional, rrIsClean rr)

/-- Model of `ResponseGet`: snapshot of the three sections. The Go function
allocates the copies with `make([]dns.RR, len(...))`, which always
yields a non-nil slice, so every component is `some`. -/
def ResponseGet (st : RspState) :
    Option (List RR) × Option (List RR) × Option (List RR) :=
  (some st.rspAnswer, some st.rspAuthority, some st.rspAdditional)

/-! ## The report renderer (model of `ResponsePrint`) -/

/-- A DNS question (`dns.Question`): name, type, class. -/
structure Question where
  name : String
  qtype : Nat
  qclass : Nat
deriving DecidableEq, Repr

/-- Model of the library rendering `dns.Question.String()` (leading
semicolon, then name, class and type, tab-separated; the class/type
mnemonic tables are abbreviated to their numeric values, which no claim
depends on). -/
def questionString (q : Question) : String :=
  ";" ++ q.name ++ "\t" ++ toString q.qclass ++ "\t" ++ toString q.qtype

/-- Model of the library rendering `rr.String()`: a one-line textual
form of the record (the `body` component abstracts name/type/TTL/rdata). -/
def rrString (rr : RR) : String :=
  toString rr.body ++ "\t" ++ toString rr.rrClass

/-- The section header written by `ResponsePrint` for the question
pseudo-section (one `WriteString` call, newline included). -/
def questionHeader : String := ";; QUESTION PSEUDOSECTION:\n"

/-- The answer section header written by `ResponsePrint`. -/
def answerHeader : String := ";; ANSWER SECTION:\n"

/-- The authority section header written by `ResponsePrint`. -/
def authorityHeader : String := ";; AUTHORITY SECTION:\n"

/-- The additional section header written by `ResponsePrint`. -/
def additionalHeader : String := ";; ADDITIONAL SECTION:\n"

/-- One write call issued by `ResponsePrint` into its buffer: a section
header `WriteString`, a record/question text `WriteString`, or a
`WriteByte('\n')`. -/
inductive OutChunk where
  | header (s : String)
  | text (s : String)
  | newline
deriving DecidableEq, Repr

/-- The bytes of one write call. -/
def chunkStr : OutChunk → String
  | OutChunk.header s => s
  | OutChunk.text s => s
  | OutChunk.newline => "\n"

/-- The per-record loop body of `ResponsePrint`:
`WriteString(rr.String()); WriteByte('\n')` for each record. -/
def recordChunks {α : Type} (render : α → String) : List α → List OutChunk
  | [] => []
  | x :: xs => OutChunk.text (render x) :: OutChunk.newline :: recordChunks render xs

/-- One section block of `ResponsePrint`: nothing when the slice is nil
(`sec = none`); otherwise the header, the record lines, and a trailing
blank line — even when the non-nil slice is empty. -/
def sectionChunks {α : Type} (hdr : String) (render : α → String) :
    Option (List α) → List OutChunk
  | none => []
  | some xs => OutChunk.header hdr :: (recordChunks render xs ++ [OutChunk.newline])

/-- Model of `ResponsePrint` as the ordered sequence of write calls it issues:
question pseudo-section, then answer, authority and additional
sections. -/
def ResponsePrintChunks (question : Option (List Question))
    (ans auth add : Option (List RR)) : List OutChunk :=
  sectionChunks questionHeader questionString question ++
  sectionChunks answerHeader rrString ans ++
  sectionChunks authorityHeader rrString auth ++
  sectionChunks additionalHeader rrString add

/-- The full byte output of `ResponsePrint` (the buffer handed to
`w.Write`). -/
def ResponsePrintStr (question : Option (List Question))
    (ans auth add : Option (List RR)) : String :=
  String.join ((ResponsePrintChunks question ans auth add).map chunkStr)

/-! ## IP addresses (models of Go `net.IP` predicates and `addr.go`) -/

/-- Model of `net.IP.To4()`: a `net.IP` is a byte slice; `To4` returns
the 4-byte form for a 4-byte address or a 16-byte IPv4-mapped address
(ten zero bytes then `0xff 0xff`), and nil otherwise. -/
def ipTo4 (ip : List Nat) : Option (List Nat) :=
  if ip.length = 4 then some ip
  else if ip.length = 16 ∧ (ip.take 10).all (fun b => b = 0) ∧
      (ip.drop 10).take 2 = [255, 255] then some (ip.drop 12)
  else none

/-- Model of `AddrIs4` (from `addr.go`): `addr.To4() != nil`. -/
def AddrIs4 (ip : List Nat) : Bool := (ipTo4 ip).isSome

/-- The 16-byte `net.IPv6loopback` constant (`::1`). -/
def ipv6Loopback : List Nat := [0, 0, 0, 0, 0, 0, 0, 0, 0, 0, 0, 0, 0, 0, 0, 1]

/-- Model of `net.IP.IsLoopback()`: a v4 (or v4-mapped) address is
loopback iff its first byte is 127; otherwise compare against `::1`. -/
def isLoopback (ip : List Nat) : Bool :=
  match ipTo4 ip with
  | some ip4 => decide (ip4.head? = some 127)
  | none => decide (ip = ipv6Loopback)

/-- Model of `net.IP.IsLinkLocalUnicast()`: `169.254.0.0/16` for v4
(and v4-mapped) addresses, `fe80::/10` for 16-byte v6 addresses. -/
def isLinkLocalUnicast (ip : List Nat) : Bool :=
  match ipTo4 ip with
  | some ip4 => decide (ip4.head? = some 169 ∧ ip4[1]? = some 254)
  | none => decide (ip.length = 16 ∧ ip.head? = some 254 ∧
      (ip[1]?.map (fun b => b &&& 192)) = some 128)

/-- A `net.UDPAddr`: IP bytes, port and zone (interface name). -/
structure UDPAddr where
  ip : List Nat
  port : Nat
  zone : String
deriving DecidableEq, Repr

/-- A `net.Interface` as `IfAddrs` consumes it: OS interface index,
name, and the IPs of its addresses (the `IPNet.IP` of each entry of
`iface.Addrs()`). -/
structure GoInterface where
  ifindex : Nat
  name : String
  ifaddrs : List (List Nat)
deriving DecidableEq, Repr

/-- The options `IfAddrs` honors: `OptIface`, `Opt4`, `Opt6`. -/
structure DiscoverOpts where
  optIface : String
  opt4 : Bool
  opt6 : Bool
deriving DecidableEq, Repr

/-- The `OptIface` selection loop of `IfAddrs`: pop interfaces from the
front until the first one named `optIface`, keep exactly that one;
`none` models the fatal exit when no interface matches. -/
def ifaceSelect (optIface : String) : List GoInterface → Option (List GoInterface)
  | [] => none
  | i :: rest => if i.name = optIface then some [i] else ifaceSelect optIface rest

/-- The per-address filter of `IfAddrs`: reject loopback; accept v4 as
its 4-byte form; accept v6 only when link-local unicast; then reject
families disabled by `Opt4`/`Opt6`. Returns the IP that is stored, or
`none` when the address is dropped. -/
def addrAccept (opt4 opt6 : Bool) (ip : List Nat) : Option (List Nat) :=
  if isLoopback ip then none
  else
    match ipTo4 ip with
    | some ip4 => if opt4 then some ip4 else none
    | none => if isLinkLocalUnicast ip then (if opt6 then some ip else none) else none

/-- The accumulator of the `IfAddrs` build loop: collected addresses,
the two interface lists, and the two `map[int]bool` seen-sets (as lists
of interface indices). -/
structure IfAcc where
  addrs : List UDPAddr
  if4 : List GoInterface
  if6 : List GoInterface
  if4seen : List Nat
  if6seen : List Nat
deriving DecidableEq, Repr

/-- The body of the inner loop of `IfAddrs`, processing one interface
address: append the accepted address (port 5353, zone = interface
name), and add the interface to the family list on first use. -/
def ifAddrsStep (opt4 opt6 : Bool) (iface : GoInterface) (acc : IfAcc)
    (ip : List Nat) : IfAcc :=
  match addrAccept opt4 opt6 ip with
  | none => acc
  | some ipv =>
    let acc1 := { acc with addrs := acc.addrs ++ [⟨ipv, 5353, iface.name⟩] }
    if (ipTo4 ip).isSome && !(acc.if4seen.contains iface.ifindex) then
      { acc1 with if4 := acc1.if4 ++ [iface],
                  if4seen := acc1.if4seen ++ [iface.ifindex] }
    else if !(ipTo4 ip).isSome && !(acc.if6seen.contains iface.ifindex) then
      { acc1 with if6 := acc1.if6 ++ [iface],
                  if6seen := acc1.if6seen ++ [iface.ifindex] }
    else acc1

/-- The body of the outer loop of `IfAddrs`: process every address of
one interface. -/
def ifAddrsIface (opt4 opt6 : Bool) (acc : IfAcc) (iface : GoInterface) : IfAcc :=
  iface.ifaddrs.foldl (ifAddrsStep opt4 opt6 iface) acc

/-- Model of `IfAddrs`, as a function of the live interface list (the result of
`net.Interfaces()`): select by `OptIface`, build the address and
interface lists, and fail fatally (`none`) when no interface matches or
no address survives. -/
def IfAddrs (opts : DiscoverOpts) (interfaces : List GoInterface) :
    Option (List UDPAddr × List GoInterface × List GoInterface) :=
  match (if opts.optIface = "" then some interfaces
         else ifaceSelect opts.optIface interfaces) with
  | none => none
  | some selected =>
    let acc := selected.foldl (ifAddrsIface opts.opt4 opts.opt6) ⟨[], [], [], [], []⟩
    if acc.addrs.isEmpty then none else some (acc.addrs, acc.if4, acc.if6)

/-- The loop invariant of the `IfAddrs` build loop, relative to the
interface list `interfaces` being walked: every collected address is
non-loopback, link-local when IPv6, and tagged with the name of an
interface present in the matching family list; the seen-sets mirror the
family lists; the family lists are duplicate-free (by OS interface
index), drawn from `interfaces`, and only contain interfaces with at
least one surviving address of that family. -/
structure IfAccInv (interfaces : List GoInterface) (opt4 opt6 : Bool)
    (acc : IfAcc) : Prop where
  addrsOk : ∀ a ∈ acc.addrs,
    isLoopback a.ip = false ∧
    (AddrIs4 a.ip = false → isLinkLocalUnicast a.ip = true) ∧
    (AddrIs4 a.ip = true → ∃ i, i ∈ acc.if4 ∧ i.name = a.zone) ∧
    (AddrIs4 a.ip = false → ∃ i, i ∈ acc.if6 ∧ i.name = a.zone)
  seen4 : acc.if4seen = acc.if4.map GoInterface.ifindex
  seen6 : acc.if6seen = acc.if6.map GoInterface.ifindex
  nodup4 : (acc.if4.map GoInterface.ifindex).Nodup
  nodup6 : (acc.if6.map GoInterface.ifindex).Nodup
  sub4 : ∀ i ∈ acc.if4, i ∈ interfaces
  sub6 : ∀ i ∈ acc.if6, i ∈ interfaces
  used4 : ∀ i ∈ acc.if4, ∃ ipa, ipa ∈ i.ifaddrs ∧
    (addrAccept opt4 opt6 ipa).isSome = true ∧ AddrIs4 ipa = true
  used6 : ∀ i ∈ acc.if6, ∃ ipa, ipa ∈ i.ifaddrs ∧
    (addrAccept opt4 opt6 ipa).isSome = true ∧ AddrIs4 ipa = false

/-- The part of the `IfAddrs` loop invariant that holds for arbitrary
interface lists (no interface-index uniqueness needed): the seen-sets
mirror the family lists, the family lists are duplicate-free by
interface index, and each listed interface owns a surviving address of
that family. -/
structure IfListInv (opt4 opt6 : Bool) (acc : IfAcc) : Prop where
  seen4 : acc.if4seen = acc.if4.map GoInterface.ifindex
  seen6 : acc.if6seen = acc.if6.map GoInterface.ifindex
  nodup4 : (acc.if4.map GoInterface.ifindex).Nodup
  nodup6 : (acc.if6.map GoInterface.ifindex).Nodup
  used4 : ∀ i ∈ acc.if4, ∃ ipa, ipa ∈ i.ifaddrs ∧
    (addrAccept opt4 opt6 ipa).isSome = true ∧ AddrIs4 ipa = true
  used6 : ∀ i ∈ acc.if6, ∃ ipa, ipa ∈ i.ifaddrs ∧
    (addrAccept opt4 opt6 ipa).isSome = true ∧ AddrIs4 ipa = false

/-! ## The send loop of `QueryRun` -/

/-- Model of `net.ParseIP("224.0.0.251")` with port 5353: the IPv4 mDNS group
(`ParseIP` yields the 16-byte IPv4-mapped representation). -/
def mcast4 : UDPAddr :=
  ⟨[0, 0, 0, 0, 0, 0, 0, 0, 0, 0, 255, 255, 224, 0, 0, 251], 5353, ""⟩

/-- Model of `net.ParseIP("ff02::fb")` with port 5353: the IPv6 mDNS group. -/
def mcast6 : UDPAddr :=
  ⟨[255, 2, 0, 0, 0, 0, 0, 0, 0, 0, 0, 0, 0, 0, 0, 251], 5353, ""⟩

/-- One observable action of the send loop: a `WriteToUDP` of the
serialized query bytes from a unicast socket (identified by its local
address) to a destination, or a `time.Sleep`. -/
inductive SendEvent where
  | send (payload : List Nat) (src : UDPAddr) (dst : UDPAddr)
  | sleep (period : Nat)
deriving DecidableEq, Repr

/-- One iteration of the send loop: on every unicast socket, write the
query to the multicast group of the socket's address family
(`AddrIs4(conn.LocalAddr().(*net.UDPAddr).IP)`). -/
def queryTransmit (rqBytes : List Nat) (conns : List UDPAddr) : List SendEvent :=
  conns.map (fun c =>
    SendEvent.send rqBytes c (if AddrIs4 c.ip then mcast4 else mcast6))

/-- The send loop of `QueryRun`:
`for tmCount > 0 { transmit on every socket; tmCount--; sleep(OptTxPeriod) }`,
with `tmCount` initialized to `OptTxCount`. -/
def querySendLoop (rqBytes : List Nat) (txPeriod : Nat) :
    Nat → List UDPAddr → List SendEvent
  | 0, _ => []
  | n + 1, conns =>
    queryTransmit rqBytes conns ++
      (SendEvent.sleep txPeriod :: querySendLoop rqBytes txPeriod n conns)

/-- Is the event a socket write? -/
def isSendEvent : SendEvent → Bool
  | SendEvent.send _ _ _ => true
  | SendEvent.sleep _ => false

/-- Is the event a sleep? -/
def isSleepEvent : SendEvent → Bool
  | SendEvent.send _ _ _ => false
  | SendEvent.sleep _ => true

/-! ## The question builder (`queryNewRequest`) -/

/-- Splitting a character sequence at dots (the label structure of a
domain name; escape sequences of the DNS presentation format are not
used by any claim and are not modelled). -/
def splitDots : List Char → List (List Char)
  | [] => [[]]
  | c :: cs =>
    if c = '.' then [] :: splitDots cs
    else
      match splitDots cs with
      | [] => [[c]]
      | l :: ls => (c :: l) :: ls

/-- Model of `dns.IsFqdn(s)`: the name ends in an (unescaped) dot. -/
def isFqdn (s : String) : Bool := s.data.getLast? = some '.'

/-- Model of `dns.Fqdn(s)`: append a trailing dot unless already
present. -/
def dnsFqdn (s : String) : String := if isFqdn s then s else s ++ "."

/-- The labels of a domain name: one trailing dot (if any) does not
open a new label. -/
def domainLabels (s : String) : List (List Char) :=
  splitDots (if isFqdn s then s.data.dropLast else s.data)

/-- Model of `dns.IsDomainName(s)`: `some n` with the label count when
the name packs into DNS wire format (the root name, or non-empty labels
of at most 63 bytes with total wire length at most 255), `none`
otherwise. -/
def isDomainName (s : String) : Option Nat :=
  if s = "." then some 0
  else if (domainLabels s).all (fun l => !l.isEmpty && l.length ≤ 63) &&
      (domainLabels s).foldl (fun n l => n + 1 + l.length) 1 ≤ 255 then
    some (domainLabels s).length
  else none

/-- The built query message: the recursion-desired header bit and the
question section (the random message id is not modelled). -/
structure QueryMsg where
  recursionDesired : Bool
  question : List Question
deriving DecidableEq, Repr

/-- Model of `queryNewRequest`, as a function of the configured domain, type and
class: validate the domain (`none` models the fatal exit), qualify it
with `.local.` when it has fewer than two labels, normalize to FQDN,
and build the single question with the recursion-desired bit clear. -/
def queryNewRequest (domain : String) (qtype qclass : Nat) : Option QueryMsg :=
  match isDomainName domain with
  | none => none
  | some labels =>
    let fqdn := dnsFqdn (if labels < 2 then domain ++ ".local." else domain)
    some ⟨false, [⟨fqdn, qtype, qclass⟩]⟩

/-! ## Command-line parsing (`optParse`, `usage`, `usageError`) -/

/-- Model of `strings.HasPrefix(arg, p)` for the one-character prefixes
`"-"` and `"@"` used by `optParse`. -/
def hasPrefixChar (c : Char) (s : String) : Bool := s.data.head? = some c

/-- The result of the argument-splitting loop of `optParse`:
`help` models a `-h` hit (the `usage()` call, which exits 0);
`errMissingArg` models `usageError("option %s requires argument", ...)`
(exit 1); `split` carries the positional arguments and the collected
options, in order. -/
inductive ScanResult where
  | help
  | errMissingArg (opt : String)
  | split (args : List String) (opts : List (String × String))
deriving DecidableEq, Repr

/-- Prepend a positional argument to a `split` result (the early exits
pass through unchanged, as the Go process has already exited). -/
def scanConsArg (a : String) : ScanResult → ScanResult
  | ScanResult.split args opts => ScanResult.split (a :: args) opts
  | r => r

/-- Prepend a collected option to a `split` result. -/
def scanConsOpt (o : String × String) : ScanResult → ScanResult
  | ScanResult.split args opts => ScanResult.split args (o :: opts)
  | r => r

/-- The argument-splitting loop of `optParse`, over `os.Args[1:]`. The
`Bool` is the `endOfOptions` flag set by `--`. Value-carrying options
`-p`/`-c` consume the following argument; a `-h` exits via `usage()`;
other `-`/`@` arguments become options with an empty value; everything
else is positional. -/
def optScan : Bool → List String → ScanResult
  | _, [] => ScanResult.split [] []
  | true, a :: rest => scanConsArg a (optScan true rest)
  | false, a :: rest =>
    if a = "--" then optScan true rest
    else if a = "-h" then ScanResult.help
    else if a = "-p" ∨ a = "-c" then
      match rest with
      | [] => ScanResult.errMissingArg a
      | v :: rest2 => scanConsOpt (a, v) (optScan false rest2)
    else if hasPrefixChar '-' a ∨ hasPrefixChar '@' a then
      scanConsOpt (a, "") (optScan false rest)
    else scanConsArg a (optScan false rest)

/-- The program options set by `optParse` (defaults from `main.go`:
query type A = 1, class IN = 1, 250 ms retransmit period, 10
transmissions). -/
structure Config where
  domain : String := ""
  qtype : Nat := 1
  qclass : Nat := 1
  iface : String := ""
  opt4 : Bool := false
  opt6 : Bool := false
  txPeriodMs : Nat := 250
  txCount : Nat := 10
  debug : Bool := false
  verbose : Bool := false
deriving DecidableEq, Repr

/-- Model of the subset of the library table `dns.StringToType` that
the development exercises (no claim depends on the exact table
contents, only on hit versus miss). -/
def stringToType (s : String) : Option Nat :=
  if s = "A" then some 1
  else if s = "AAAA" then some 28
  else if s = "PTR" then some 12
  else if s = "TXT" then some 16
  else if s = "ANY" then some 255
  else none

/-- Model of the subset of the library table `dns.StringToClass` that
the development exercises. -/
def stringToClass (s : String) : Option Nat :=
  if s = "IN" then some 1
  else if s = "CH" then some 3
  else if s = "ANY" then some 255
  else none

/-- The positional-argument switch of `optParse`: zero positionals is
the `usageError("missed domain")` exit, more than three is an invalid
argument, and unknown type/class mnemonics are usage errors (`none`
models every exit-1 outcome). -/
def optPositionals (cfg : Config) : List String → Option Config
  | [] => none
  | [d] => some { cfg with domain := d }
  | [d, t] =>
    (stringToType t.toUpper).map (fun tv => { cfg with domain := d, qtype := tv })
  | [d, t, c] =>
    match stringToClass c.toUpper with
    | none => none
    | some cv =>
      match stringToType t.toUpper with
      | none => none
      | some tv => some { cfg with domain := d, qtype := tv, qclass := cv }
  | _ => none

/-- The value of one digit character in the given base. -/
def digitVal (base : Nat) (c : Char) : Option Nat :=
  let v : Option Nat :=
    if '0' ≤ c ∧ c ≤ '9' then some (c.toNat - 48)
    else if 'a' ≤ c ∧ c ≤ 'z' then some (c.toNat - 87)
    else if 'A' ≤ c ∧ c ≤ 'Z' then some (c.toNat - 55)
    else none
  match v with
  | some d => if d < base then some d else none
  | none => none

/-- A non-empty digit run in the given base, most significant first. -/
def parseDigits (base : Nat) (cs : List Char) : Option Nat :=
  if cs.isEmpty then none
  else
    cs.foldl
      (fun acc c =>
        match acc, digitVal base c with
        | some n, some d => some (n * base + d)
        | _, _ => none)
      (some 0)

/-- Model of `strconv.ParseUint(s, 0, 31)`: base detected from the
`0x`/`0b`/`0o`/leading-zero prefix, result below 2^31 (digit-group
underscores, accepted by Go in base-0 mode, are not modelled; no claim
exercises them). -/
def goParseUint31 (s : String) : Option Nat :=
  let core : Option Nat :=
    match s.data with
    | '0' :: 'x' :: rest => parseDigits 16 rest
    | '0' :: 'X' :: rest => parseDigits 16 rest
    | '0' :: 'b' :: rest => parseDigits 2 rest
    | '0' :: 'B' :: rest => parseDigits 2 rest
    | '0' :: 'o' :: rest => parseDigits 8 rest
    | '0' :: 'O' :: rest => parseDigits 8 rest
    | '0' :: rest => if rest.isEmpty then some 0 else parseDigits 8 rest
    | cs => parseDigits 10 cs
  match core with
  | some n => if n < 2 ^ 31 then some n else none
  | none => none

/-- The option-application loop of `optParse` (`none` models every
usage-error exit: bad `-p`/`-c` value, duplicated `@interface`, unknown
option). -/
def optApply (cfg : Config) : List (String × String) → Option Config
  | [] => some cfg
  | (n, v) :: rest =>
    if n = "-4" then optApply { cfg with opt4 := true } rest
    else if n = "-6" then optApply { cfg with opt6 := true } rest
    else if n = "-d" then optApply { cfg with debug := true } rest
    else if n = "-v" then optApply { cfg with verbose := true } rest
    else if n = "-p" ∨ n = "-c" then
      match goParseUint31 v with
      | none => none
      | some val =>
        if n = "-p" then optApply { cfg with txPeriodMs := val } rest
        else optApply { cfg with txCount := val } rest
    else if hasPrefixChar '@' n then
      if cfg.iface = "" then optApply { cfg with iface := n.drop 1 } rest
      else none
    else none

/-- The exit-level outcome of `optParse` over `os.Args[1:]`: `help`
models the `usage()` path (prints usage, exits 0), `usageErr` models
every `usageError` path (exits 1), `ok` means the process continues
with the parsed configuration. -/
inductive OptOutcome where
  | help
  | usageErr
  | ok (cfg : Config)
deriving DecidableEq, Repr

/-- Model of `optParse`: an empty argument list prints the usage screen and
exits 0; otherwise split, handle positionals, handle options, and
apply the `Opt4` default fixup. -/
def optParse (argv : List String) : OptOutcome :=
  if argv.isEmpty then OptOutcome.help
  else
    match optScan false argv with
    | ScanResult.help => OptOutcome.help
    | ScanResult.errMissingArg _ => OptOutcome.usageErr
    | ScanResult.split args opts =>
      match optPositionals {} args with
      | none => OptOutcome.usageErr
      | some cfg =>
        match optApply cfg opts with
        | none => OptOutcome.usageErr
        | some cfg2 =>
          OptOutcome.ok
            (if !cfg2.opt4 && !cfg2.opt6 then { cfg2 with opt4 := true } else cfg2)

/-- The process exit status of an `optParse` outcome: `usage()` exits
0, `usageError` exits 1, and `ok` does not exit during parsing. -/
def exitCode : OptOutcome → Option Nat
  | OptOutcome.help => some 0
  | OptOutcome.usageErr => some 1
  | OptOutcome.ok _ => none

/-- No domain argument is supplied: whenever the argument-splitting
loop completes (rather than exiting early), its positional-argument
list is empty. -/
def noDomainSupplied (argv : List String) : Prop :=
  ∀ args opts, optScan false argv = ScanResult.split args opts → args = []

/-! ## Dedup lemmas -/

theorem mem_dedupAux {α : Type} [DecidableEq α] (a : α) :
    ∀ (l seen : List α), a ∈ dedupAux seen l ↔ a ∈ l ∧ a ∉ seen := by
  intro l
  induction l with
  | nil => intro seen; simp [dedupAux]
  | cons x xs ih =>
    intro seen
    by_cases hx : x ∈ seen
    · rw [dedupAux, if_pos hx, ih]
      constructor
      · rintro ⟨h1, h2⟩; exact ⟨List.mem_cons_of_mem _ h1, h2⟩
      · rintro ⟨h1, h2⟩
        rcases List.mem_cons.mp h1 with h | h
        · exact absurd (h ▸ hx) h2
        · exact ⟨h, h2⟩
    · rw [dedupAux, if_neg hx, List.mem_cons, ih]
      constructor
      · rintro (rfl | ⟨h1, h2⟩)
        · exact ⟨List.mem_cons_self _ _, hx⟩
        · exact ⟨List.mem_cons_of_mem _ h1, fun hc => h2 (List.mem_cons_of_mem _ hc)⟩
      · rintro ⟨h1, h2⟩
        by_cases hax : a = x
        · exact Or.inl hax
        · rcases List.mem_cons.mp h1 with h | h
          · exact Or.inl h
          · refine Or.inr ⟨h, fun hc => ?_⟩
            rcases List.mem_cons.mp hc with h' | h'
            · exact hax h'
            · exact h2 h'

theorem nodup_dedupAux {α : Type} [DecidableEq α] :
    ∀ (l seen : List α), (dedupAux seen l).Nodup := by
  intro l
  induction l with
  | nil => intro seen; simp [dedupAux]
  | cons x xs ih =>
    intro seen
    by_cases hx : x ∈ seen
    · rw [dedupAux, if_pos hx]; exact ih seen
    · rw [dedupAux, if_neg hx]
      refine List.nodup_cons.mpr ⟨fun hc => ?_, ih (x :: seen)⟩
      exact ((mem_dedupAux x xs (x :: seen)).mp hc).2 (List.mem_cons_self _ _)

theorem mem_dedup {α : Type} [DecidableEq α] (a : α) (l : List α) :
    a ∈ dedup l ↔ a ∈ l := by
  rw [dedup, mem_dedupAux]; simp

theorem nodup_dedup {α : Type} [DecidableEq α] (l : List α) : (dedup l).Nodup :=
  nodup_dedupAux l []

theorem dedupAux_eq_self {α : Type} [DecidableEq α] :
    ∀ (l seen : List α), l.Nodup → (∀ a ∈ l, a ∉ seen) → dedupAux seen l = l := by
  intro l
  induction l with
  | nil => intro seen _ _; rfl
  | cons x xs ih =>
    intro seen hnd hdisj
    rw [dedupAux, if_neg (hdisj x (List.mem_cons_self _ _))]
    rcases List.nodup_cons.mp hnd with ⟨hx, hxs⟩
    rw [ih (x :: seen) hxs]
    intro a ha hc
    rcases List.mem_cons.mp hc with h | h
    · exact hx (h ▸ ha)
    · exact hdisj a (List.mem_cons_of_mem _ ha) h

theorem dedup_eq_self {α : Type} [DecidableEq α] (l : List α) (h : l.Nodup) :
    dedup l = l :=
  dedupAux_eq_self l [] h (by simp)

theorem dedupAux_append_absorb {α : Type} [DecidableEq α] :
    ∀ (l l2 seen : List α), (∀ a ∈ l2, a ∈ l ∨ a ∈ seen) →
      dedupAux seen (l ++ l2) = dedupAux seen l := by
  intro l
  induction l with
  | nil =>
    intro l2 seen h
    rw [List.nil_append, dedupAux]
    induction l2 with
    | nil => rfl
    | cons y ys ih2 =>
      have hy : y ∈ seen := by
        rcases h y (List.mem_cons_self _ _) with h' | h'
        · exact absurd h' (List.not_mem_nil y)
        · exact h'
      rw [dedupAux, if_pos hy]
      exact ih2 (fun a ha => h a (List.mem_cons_of_mem _ ha))
  | cons x xs ih =>
    intro l2 seen h
    rw [List.cons_append, dedupAux, dedupAux]
    by_cases hx : x ∈ seen
    · rw [if_pos hx, if_pos hx, ih]
      intro a ha
      rcases h a ha with h' | h'
      · rcases List.mem_cons.mp h' with h'' | h''
        · exact Or.inr (h'' ▸ hx)
        · exact Or.inl h''
      · exact Or.inr h'
    · rw [if_neg hx, if_neg hx, ih]
      intro a ha
      rcases h a ha with h' | h'
      · rcases List.mem_cons.mp h' with h'' | h''
        · exact Or.inr (by simp [h''])
        · exact Or.inl h''
      · exact Or.inr (List.mem_cons_of_mem _ h')

theorem dedup_append_absorb {α : Type} [DecidableEq α] (l l2 : List α)
    (h : ∀ a ∈ l2, a ∈ l) : dedup (l ++ l2) = dedup l :=
  dedupAux_append_absorb l l2 [] (fun a ha => Or.inl (h a ha))

/-! ## `responseAppend` and `ResponseInput` lemmas -/

theorem nodup_responseAppend (sec data : List RR) : (responseAppend sec data).Nodup :=
  nodup_dedup _

theorem mem_responseAppend (a : RR) (sec data : List RR) :
    a ∈ responseAppend sec data ↔
      a ∈ sec ∨ a ∈ (data.filter (fun rr => !rr.isOPT)).map rrClean := by
  rw [responseAppend, mem_dedup, List.mem_append]

theorem responseAppend_idem (sec data : List RR) :
    responseAppend (responseAppend sec data) data = responseAppend sec data := by
  have h1 : responseAppend (responseAppend sec data) data
      = dedup (responseAppend sec data) := by
    apply dedup_append_absorb
    intro a ha
    exact (mem_responseAppend a sec data).mpr (Or.inr ha)
  rw [h1, dedup_eq_self _ (nodup_responseAppend sec data)]

theorem rrIsClean_rrClean (rr : RR) (h : rr.isOPT = false) : rrIsClean (rrClean rr) := by
  refine ⟨h, ?_⟩
  show (rr.rrClass &&& 32767).testBit 15 = false
  rw [Nat.testBit_land]
  simp [show Nat.testBit 32767 15 = false by decide]

theorem responseAppend_clean (sec data : List RR)
    (hsec : ∀ rr ∈ sec, rrIsClean rr) :
    ∀ rr ∈ responseAppend sec data, rrIsClean rr := by
  intro rr hrr
  rcases (mem_responseAppend rr sec data).mp hrr with h | h
  · exact hsec rr h
  · rcases List.mem_map.mp h with ⟨b, hb, rfl⟩
    exact rrIsClean_rrClean b (by simpa using (List.mem_filter.mp hb).2)

theorem stateClean_responseInput (st : RspState) (m : Msg) (h : stateClean st) :
    stateClean (ResponseInput st m) := by
  rcases h with ⟨hans, _, hadd⟩
  have h1 : ∀ rr ∈ responseAppend st.rspAnswer m.answer, rrIsClean rr :=
    responseAppend_clean _ _ hans
  exact ⟨h1, responseAppend_clean _ _ h1, responseAppend_clean _ _ hadd⟩

theorem stateClean_foldl (msgs : List Msg) :
    ∀ st : RspState, stateClean st → stateClean (msgs.foldl ResponseInput st) := by
  induction msgs with
  | nil => intro st h; exact h
  | cons m ms ih =>
    intro st h
    exact ih (ResponseInput st m) (stateClean_responseInput st m h)

/-! ## C1 -/

/-- C1: the claim states that the stored authority section is the
deduplicated concatenation of the previously stored authority records
with the message's cleaned Ns records, independent of the answer
accumulator. The code instead computes
`rspAuthority = responseAppend(rspAnswer, rsp.Ns)` from the freshly
updated answer accumulator: ingesting, from the empty state, a message
with one answer record and no Ns records stores that answer record in
the authority section, where independent accumulation would leave the
authority section empty. -/
theorem c1_authority_uses_answer_accumulator :
    (ResponseInput initRspState ⟨[⟨false, 1, 0⟩], [], []⟩).rspAuthority
        = [⟨false, 1, 0⟩] ∧
      responseAppend initRspState.rspAuthority ([] : List RR) = [] := by
  decide

/-! ## C3 -/

/-- C3: after any sequence of `ResponseInput` calls starting from the
empty initial state, every stored record of every section has the mDNS
unicast-response bit (bit 15 of the class field) cleared and is not an
OPT pseudo-record. -/
theorem c3_stored_records_clean (msgs : List Msg) :
    stateClean (runResponseInputs msgs) :=
  stateClean_foldl msgs initRspState (by refine ⟨?_, ?_, ?_⟩ <;> simp [initRspState])

/-- Witness for C3: a message whose answer record arrives with the
unicast-response bit set (class `0x8001`) and whose extra section is an
OPT record still yields a clean stored state. -/
theorem c3_witness :
    stateClean (runResponseInputs [⟨[⟨false, 32769, 7⟩], [], [⟨true, 3, 3⟩]⟩]) :=
  c3_stored_records_clean [⟨[⟨false, 32769, 7⟩], [], [⟨true, 3, 3⟩]⟩]

/-! ## C4 -/

/-- C4: each stored section is duplicate-free after any sequence of
ingested messages, and `ResponseInput` is idempotent: ingesting the
same message twice in a row from any state equals ingesting it once. -/
theorem c4_dedup_and_idempotent :
    (∀ msgs : List Msg,
        (runResponseInputs msgs).rspAnswer.Nodup ∧
        (runResponseInputs msgs).rspAuthority.Nodup ∧
        (runResponseInputs msgs).rspAdditional.Nodup) ∧
      ∀ (st : RspState) (m : Msg),
        ResponseInput (ResponseInput st m) m = ResponseInput st m := by
  constructor
  · have key : ∀ (msgs : List Msg) (st : RspState),
        st.rspAnswer.Nodup ∧ st.rspAuthority.Nodup ∧ st.rspAdditional.Nodup →
        (msgs.foldl ResponseInput st).rspAnswer.Nodup ∧
        (msgs.foldl ResponseInput st).rspAuthority.Nodup ∧
        (msgs.foldl ResponseInput st).rspAdditional.Nodup := by
      intro msgs
      induction msgs with
      | nil => intro st h; exact h
      | cons m ms ih =>
        intro st _
        exact ih (ResponseInput st m)
          ⟨nodup_responseAppend _ _, nodup_responseAppend _ _, nodup_responseAppend _ _⟩
    intro msgs
    exact key msgs initRspState (by refine ⟨?_, ?_, ?_⟩ <;> exact List.nodup_nil)
  · intro st m
    simp only [ResponseInput, responseAppend_idem]

/-- Witness for C4: its first component evaluated on a message carrying
a duplicated answer record, its second on a concrete state and message. -/
theorem c4_witness :
    ((runResponseInputs [⟨[⟨false, 2, 9⟩, ⟨false, 2, 9⟩], [], []⟩]).rspAnswer.Nodup ∧
        (runResponseInputs [⟨[⟨false, 2, 9⟩, ⟨false, 2, 9⟩], [], []⟩]).rspAuthority.Nodup ∧
        (runResponseInputs [⟨[⟨false, 2, 9⟩, ⟨false, 2, 9⟩], [], []⟩]).rspAdditional.Nodup) ∧
      ResponseInput (ResponseInput initRspState ⟨[], [⟨false, 4, 4⟩], []⟩)
          ⟨[], [⟨false, 4, 4⟩], []⟩
        = ResponseInput initRspState ⟨[], [⟨false, 4, 4⟩], []⟩ :=
  ⟨c4_dedup_and_idempotent.1 [⟨[⟨false, 2, 9⟩, ⟨false, 2, 9⟩], [], []⟩],
   c4_dedup_and_idempotent.2 initRspState ⟨[], [⟨false, 4, 4⟩], []⟩⟩

/-! ## Renderer lemmas and C2 -/

theorem header_not_mem_recordChunks {α : Type} (h : String) (render : α → String) :
    ∀ xs : List α, OutChunk.header h ∉ recordChunks render xs := by
  intro xs
  induction xs with
  | nil => simp [recordChunks]
  | cons x xs ih => simp [recordChunks, ih]

theorem header_mem_sectionChunks {α : Type} (h hdr : String) (render : α → String)
    (sec : Option (List α)) :
    OutChunk.header h ∈ sectionChunks hdr render sec ↔ h = hdr ∧ sec ≠ none := by
  cases sec with
  | none => simp [sectionChunks]
  | some xs =>
    simp only [sectionChunks, List.mem_cons, List.mem_append]
    constructor
    · rintro (heq | hmem | hmem)
      · exact ⟨(OutChunk.header.injEq h hdr).mp heq, by simp⟩
      · exact absurd hmem (header_not_mem_recordChunks h render xs)
      · simp at hmem
    · rintro ⟨rfl, _⟩
      exact Or.inl rfl

/-- C2, counterexample: an empty-but-non-nil answer slice, such as
`ResponseGet` returns when nothing was collected, is not rendered like a
nil one — its header write is issued and the byte output differs from
the all-nil output, where the claim requires them to be identical. -/
theorem c2_counterexample :
    ResponsePrintStr none (some []) none none ≠ ResponsePrintStr none none none none ∧
      OutChunk.header answerHeader ∈ ResponsePrintChunks none (some []) none none := by
  decide

/-- C2, amended: `ResponsePrint` emits a section's header if and only
if that section is a non-nil slice; an empty-but-non-nil slice still
receives its header. In particular the three (always non-nil) sections
returned by `ResponseGet` always have their headers printed, even when
nothing was collected. -/
theorem c2_header_iff_nonnil :
    (∀ (q : Option (List Question)) (ans auth add : Option (List RR)),
        (OutChunk.header questionHeader ∈ ResponsePrintChunks q ans auth add ↔ q ≠ none) ∧
        (OutChunk.header answerHeader ∈ ResponsePrintChunks q ans auth add ↔ ans ≠ none) ∧
        (OutChunk.header authorityHeader ∈ ResponsePrintChunks q ans auth add ↔ auth ≠ none) ∧
        (OutChunk.header additionalHeader ∈ ResponsePrintChunks q ans auth add ↔ add ≠ none)) ∧
      ∀ st : RspState,
        OutChunk.header answerHeader ∈
            ResponsePrintChunks none (ResponseGet st).1 (ResponseGet st).2.1
              (ResponseGet st).2.2 ∧
          OutChunk.header authorityHeader ∈
            ResponsePrintChunks none (ResponseGet st).1 (ResponseGet st).2.1
              (ResponseGet st).2.2 ∧
          OutChunk.header additionalHeader ∈
            ResponsePrintChunks none (ResponseGet st).1 (ResponseGet st).2.1
              (ResponseGet st).2.2 := by
  have hqa : questionHeader ≠ answerHeader := by decide
  have hqu : questionHeader ≠ authorityHeader := by decide
  have hqd : questionHeader ≠ additionalHeader := by decide
  have hau : answerHeader ≠ authorityHeader := by decide
  have had : answerHeader ≠ additionalHeader := by decide
  have hud : authorityHeader ≠ additionalHeader := by decide
  constructor
  · intro q ans auth add
    refine ⟨?_, ?_, ?_, ?_⟩ <;>
      simp [ResponsePrintChunks, List.mem_append, header_mem_sectionChunks,
        hqa, hqu, hqd, hau, had, hud, hqa.symm, hqu.symm, hqd.symm, hau.symm,
        had.symm, hud.symm]
  · intro st
    refine ⟨?_, ?_, ?_⟩ <;>
      simp [ResponsePrintChunks, ResponseGet, List.mem_append,
        header_mem_sectionChunks]

/-- Witness for C2's amended theorem at concrete sections: a nil
question, an empty non-nil answer, a nil authority and a one-record
additional section. -/
theorem c2_witness :
    (OutChunk.header questionHeader ∈
        ResponsePrintChunks none (some []) none (some [⟨false, 1, 5⟩]) ↔
          (none : Option (List Question)) ≠ none) ∧
      (OutChunk.header answerHeader ∈
        ResponsePrintChunks none (some []) none (some [⟨false, 1, 5⟩]) ↔
          (some [] : Option (List RR)) ≠ none) ∧
      (OutChunk.header authorityHeader ∈
        ResponsePrintChunks none (some []) none (some [⟨false, 1, 5⟩]) ↔
          (none : Option (List RR)) ≠ none) ∧
      (OutChunk.header additionalHeader ∈
        ResponsePrintChunks none (some []) none (some [⟨false, 1, 5⟩]) ↔
          (some [⟨false, 1, 5⟩] : Option (List RR)) ≠ none) :=
  c2_header_iff_nonnil.1 none (some []) none (some [⟨false, 1, 5⟩])

/-! ## Send-loop lemmas and C7 -/

theorem countP_send_queryTransmit (rqBytes : List Nat) (conns : List UDPAddr) :
    (queryTransmit rqBytes conns).countP isSendEvent = conns.length := by
  rw [queryTransmit, List.countP_map]
  have : (isSendEvent ∘ fun c : UDPAddr =>
      SendEvent.send rqBytes c (if AddrIs4 c.ip then mcast4 else mcast6))
      = fun _ => true := by
    funext c; rfl
  rw [this]
  induction conns with
  | nil => rfl
  | cons c cs ih => simp [List.countP_cons, ih]

theorem countP_sleep_queryTransmit (rqBytes : List Nat) (conns : List UDPAddr) :
    (queryTransmit rqBytes conns).countP isSleepEvent = 0 := by
  rw [queryTransmit, List.countP_map]
  have : (isSleepEvent ∘ fun c : UDPAddr =>
      SendEvent.send rqBytes c (if AddrIs4 c.ip then mcast4 else mcast6))
      = fun _ => false := by
    funext c; rfl
  rw [this]
  induction conns with
  | nil => rfl
  | cons c cs ih => simp [List.countP_cons, ih]

theorem send_inj (rqBytes : List Nat) :
    Function.Injective (fun c : UDPAddr =>
      SendEvent.send rqBytes c (if AddrIs4 c.ip then mcast4 else mcast6)) := by
  intro a b h
  simpa using (SendEvent.send.injEq _ _ _ _ _ _).mp h |>.2.1

/-- C7: the send loop runs exactly `transmitCount` iterations — it
issues `transmitCount * |conns|` socket writes in total and exactly
`transmitCount` per distinct socket — every write carries the serialized
query and goes to the IPv4 group `224.0.0.251:5353` when the socket's
local address is IPv4 and to the IPv6 group `ff02::fb:5353` otherwise,
and the loop sleeps `transmitPeriod` between iterations
(`transmitCount` sleeps in total). -/
theorem c7_send_loop (rqBytes : List Nat) (txPeriod txCount : Nat)
    (conns : List UDPAddr) :
    ((querySendLoop rqBytes txPeriod txCount conns).countP isSendEvent
        = txCount * conns.length) ∧
      ((querySendLoop rqBytes txPeriod txCount conns).countP isSleepEvent = txCount) ∧
      (∀ pl src dst,
        SendEvent.send pl src dst ∈ querySendLoop rqBytes txPeriod txCount conns →
          pl = rqBytes ∧ src ∈ conns ∧
            dst = (if AddrIs4 src.ip then mcast4 else mcast6)) ∧
      (∀ p, SendEvent.sleep p ∈ querySendLoop rqBytes txPeriod txCount conns →
        p = txPeriod) ∧
      (conns.Nodup → ∀ c ∈ conns,
        (querySendLoop rqBytes txPeriod txCount conns).count
            (SendEvent.send rqBytes c (if AddrIs4 c.ip then mcast4 else mcast6))
          = txCount) := by
  induction txCount with
  | zero =>
    refine ⟨by simp [querySendLoop], by simp [querySendLoop], ?_, ?_, ?_⟩
    · intro pl src dst h; exact absurd h (List.not_mem_nil _)
    · intro p h; exact absurd h (List.not_mem_nil _)
    · intro _ c _; rfl
  | succ n ih =>
    rcases ih with ⟨ih1, ih2, ih3, ih4, ih5⟩
    refine ⟨?_, ?_, ?_, ?_, ?_⟩
    · rw [querySendLoop, List.countP_append, List.countP_cons,
        countP_send_queryTransmit, ih1]
      simp [isSendEvent, Nat.succ_mul, Nat.add_comm]
    · rw [querySendLoop, List.countP_append, List.countP_cons,
        countP_sleep_queryTransmit, ih2]
      simp [isSleepEvent, Nat.add_comm]
    · intro pl src dst h
      rw [querySendLoop, List.mem_append, List.mem_cons] at h
      rcases h with h | h | h
      · rcases List.mem_map.mp h with ⟨c, hc, heq⟩
        rcases (SendEvent.send.injEq _ _ _ _ _ _).mp heq.symm with ⟨h1, h2, h3⟩
        refine ⟨h1, ?_, ?_⟩
        · rw [h2]; exact hc
        · rw [h3, h2]
      · exact absurd h (by simp)
      · exact ih3 pl src dst h
    · intro p h
      rw [querySendLoop, List.mem_append, List.mem_cons] at h
      rcases h with h | h | h
      · rcases List.mem_map.mp h with ⟨c, _, heq⟩
        exact absurd heq (by simp)
      · exact (SendEvent.sleep.injEq _ _).mp h
      · exact ih4 p h
    · intro hnd c hc
      rw [querySendLoop, List.count_append, List.count_cons]
      have h1 : (queryTransmit rqBytes conns).count
          (SendEvent.send rqBytes c (if AddrIs4 c.ip then mcast4 else mcast6)) = 1 := by
        rw [queryTransmit,
          List.count_map_of_injective conns _ (send_inj rqBytes) c,
          List.count_eq_one_of_mem hnd hc]
      rw [h1, ih5 hnd c hc]
      simp only [beq_iff_eq, reduceCtorEq, if_false]
      omega

/-- Witness for C7 at a concrete loop: three transmissions over one
IPv4-bound and one IPv6-bound socket. -/
theorem c7_witness :
    ((querySendLoop [1, 2] 250 3
          [⟨[10, 0, 0, 1], 5353, "eth0"⟩,
           ⟨[254, 128, 0, 0, 0, 0, 0, 0, 0, 0, 0, 0, 0, 0, 0, 3], 5353, "eth0"⟩]).countP
        isSendEvent = 3 * 2) ∧
      ((querySendLoop [1, 2] 250 3
          [⟨[10, 0, 0, 1], 5353, "eth0"⟩,
           ⟨[254, 128, 0, 0, 0, 0, 0, 0, 0, 0, 0, 0, 0, 0, 0, 3], 5353, "eth0"⟩]).count
        (SendEvent.send [1, 2] ⟨[10, 0, 0, 1], 5353, "eth0"⟩
          (if AddrIs4 [10, 0, 0, 1] then mcast4 else mcast6)) = 3) :=
  ⟨(c7_send_loop [1, 2] 250 3 _).1,
    (c7_send_loop [1, 2] 250 3
        [⟨[10, 0, 0, 1], 5353, "eth0"⟩,
         ⟨[254, 128, 0, 0, 0, 0, 0, 0, 0, 0, 0, 0, 0, 0, 0, 3], 5353, "eth0"⟩]).2.2.2.2
      (by decide) ⟨[10, 0, 0, 1], 5353, "eth0"⟩ (by decide)⟩

/-! ## Question-builder lemmas, C8 and C10 -/

theorem isFqdn_append_local (s : String) : isFqdn (s ++ ".local.") = true := by
  rw [isFqdn, String.data_append, List.getLast?_append]
  rfl

/-- C8: for every valid configured domain, `queryNewRequest` builds
exactly one question, with the recursion-desired bit clear, named
`domain ++ ".local."` when the domain has fewer than two labels and the
FQDN-normalized domain otherwise; in particular `"foo"` yields
`"foo.local."` and `"foo.bar."` stays `"foo.bar."`. -/
theorem c8_single_question :
    (∀ (d : String) (t c n : Nat), isDomainName d = some n →
        ∃ rq, queryNewRequest d t c = some rq ∧ rq.recursionDesired = false ∧
          rq.question = [⟨if n < 2 then d ++ ".local." else dnsFqdn d, t, c⟩]) ∧
      queryNewRequest "foo" 1 1 = some ⟨false, [⟨"foo.local.", 1, 1⟩]⟩ ∧
      queryNewRequest "foo.bar." 28 1 = some ⟨false, [⟨"foo.bar.", 28, 1⟩]⟩ := by
  refine ⟨?_, by decide, by decide⟩
  intro d t c n h
  by_cases hlt : n < 2
  · refine ⟨⟨false, [⟨d ++ ".local.", t, c⟩]⟩, ?_, rfl, ?_⟩
    · simp only [queryNewRequest, h, if_pos hlt]
      rw [dnsFqdn, if_pos (isFqdn_append_local d)]
    · rw [if_pos hlt]
  · refine ⟨⟨false, [⟨dnsFqdn d, t, c⟩]⟩, ?_, rfl, ?_⟩
    · simp only [queryNewRequest, h, if_neg hlt]
    · rw [if_neg hlt]

/-- Witness for C8 at a concrete single-label domain. -/
theorem c8_witness :
    ∃ rq, queryNewRequest "mydomain" 12 1 = some rq ∧
      rq.recursionDesired = false ∧
      rq.question = [⟨if 1 < 2 then "mydomain" ++ ".local." else dnsFqdn "mydomain",
        12, 1⟩] :=
  c8_single_question.1 "mydomain" 12 1 1 (by decide)

/-- C10: a dot-terminated domain accepted with fewer than two labels
gets the `.local.` suffix appended verbatim after its trailing dot, so
the question name contains an empty label; in particular `"foo."`
yields `"foo..local."`. -/
theorem c10_trailing_dot_double_label :
    (∀ (e : String) (t c n : Nat), isDomainName (e ++ ".") = some n → n < 2 →
        ∃ rq, queryNewRequest (e ++ ".") t c = some rq ∧
          rq.question = [⟨e ++ "..local.", t, c⟩]) ∧
      queryNewRequest "foo." 16 1 = some ⟨false, [⟨"foo..local.", 16, 1⟩]⟩ := by
  refine ⟨?_, by decide⟩
  intro e t c n h hlt
  refine ⟨⟨false, [⟨e ++ "..local.", t, c⟩]⟩, ?_, rfl⟩
  simp only [queryNewRequest, h, if_pos hlt]
  rw [dnsFqdn, if_pos (isFqdn_append_local (e ++ ".")), String.append_assoc]
  rfl

/-- Witness for C10 at the concrete domain `"bar."`. -/
theorem c10_witness :
    ∃ rq, queryNewRequest ("bar" ++ ".") 1 1 = some rq ∧
      rq.question = [⟨"bar" ++ "..local.", 1, 1⟩] :=
  c10_trailing_dot_double_label.1 "bar" 1 1 1 (by decide) (by decide)

/-! ## C9 -/

/-- C9, counterexample: the empty argument list supplies no domain, yet
the process prints the usage screen and exits with status zero, where
the claim requires a non-zero exit for every domain-less invocation. -/
theorem c9_counterexample :
    (∀ args opts, optScan false [] = ScanResult.split args opts → args = []) ∧
      exitCode (optParse []) = some 0 := by
  constructor
  · intro args opts h
    injection h with h1 h2
    exact h1.symm
  · rfl

/-- C9, amended: for every argument list that supplies no domain, the
process always exits during parsing — with status zero exactly when the
argument list is empty or a help request (`-h`) is hit, and with status
one otherwise. -/
theorem c9_no_domain_exits :
    ∀ argv : List String, noDomainSupplied argv →
      exitCode (optParse argv) =
        some (if argv = [] ∨ optScan false argv = ScanResult.help then 0 else 1) := by
  intro argv hnd
  cases argv with
  | nil => rfl
  | cons a rest =>
    cases hscan : optScan false (a :: rest) with
    | help => simp [optParse, hscan, exitCode]
    | errMissingArg o =>
      simp only [optParse, List.isEmpty_cons, Bool.false_eq_true, if_false, hscan]
      simp [exitCode, hscan]
    | split args opts =>
      have hargs : args = [] := hnd args opts hscan
      subst hargs
      simp only [optParse, List.isEmpty_cons, Bool.false_eq_true, if_false, hscan]
      simp [exitCode, optPositionals, hscan]

/-- Witness for C9's amended theorem: the single-option invocation
`mcdig -4` supplies no domain and exits with status one. -/
theorem c9_witness :
    exitCode (optParse ["-4"]) =
      some (if ["-4"] = [] ∨ optScan false ["-4"] = ScanResult.help then 0 else 1) :=
  c9_no_domain_exits ["-4"] (by
    intro args opts h
    injection h with h1 h2
    exact h1.symm)

/-! ## Address-discovery lemmas, C5 and C6 -/

theorem ipTo4_length (ip v : List Nat) (h : ipTo4 ip = some v) : v.length = 4 := by
  rw [ipTo4] at h
  split_ifs at h with h1 h2
  · cases h; exact h1
  · cases h; simp [List.length_drop, h2.1]

theorem ipTo4_self (ip v : List Nat) (h : ipTo4 ip = some v) : ipTo4 v = some v := by
  rw [ipTo4, if_pos (ipTo4_length ip v h)]

theorem isLoopback_to4 (ip v : List Nat) (h : ipTo4 ip = some v) :
    isLoopback v = isLoopback ip := by
  rw [isLoopback, isLoopback, h, ipTo4_self ip v h]

theorem addrIs4_of_to4 (ip v : List Nat) (h : ipTo4 ip = some v) : AddrIs4 v = true := by
  rw [AddrIs4, ipTo4_self ip v h, Option.isSome_some]

theorem addrAccept_spec (opt4 opt6 : Bool) (ip ipv : List Nat)
    (h : addrAccept opt4 opt6 ip = some ipv) :
    isLoopback ipv = false ∧
      (AddrIs4 ipv = false → isLinkLocalUnicast ipv = true) ∧
      AddrIs4 ipv = AddrIs4 ip := by
  rw [addrAccept] at h
  by_cases hlb : isLoopback ip = true
  · rw [if_pos hlb] at h; cases h
  · rw [if_neg hlb] at h
    cases h4 : ipTo4 ip with
    | some ip4 =>
      rw [h4] at h
      dsimp only at h
      by_cases hopt : opt4 = true
      · rw [if_pos hopt] at h
        have hv : ipv = ip4 := (Option.some.inj h).symm
        subst hv
        refine ⟨?_, ?_, ?_⟩
        · rw [isLoopback_to4 ip ipv h4]
          simpa using hlb
        · intro hfalse
          rw [addrIs4_of_to4 ip ipv h4] at hfalse
          cases hfalse
        · rw [addrIs4_of_to4 ip ipv h4]
          simp only [AddrIs4, h4, Option.isSome_some]
      · rw [if_neg hopt] at h; cases h
    | none =>
      rw [h4] at h
      dsimp only at h
      by_cases hll : isLinkLocalUnicast ip = true
      · rw [if_pos hll] at h
        by_cases hopt : opt6 = true
        · rw [if_pos hopt] at h
          have hv : ipv = ip := (Option.some.inj h).symm
          subst hv
          exact ⟨by simpa using hlb, fun _ => hll, rfl⟩
        · rw [if_neg hopt] at h; cases h
      · rw [if_neg hll] at h; cases h

theorem ifAddrsStep_inv (interfaces : List GoInterface) (opt4 opt6 : Bool)
    (iface : GoInterface) (acc : IfAcc) (ip : List Nat)
    (huniq : ∀ i ∈ interfaces, ∀ j ∈ interfaces, i.ifindex = j.ifindex → i = j)
    (hiface : iface ∈ interfaces) (hip : ip ∈ iface.ifaddrs)
    (hinv : IfAccInv interfaces opt4 opt6 acc) :
    IfAccInv interfaces opt4 opt6 (ifAddrsStep opt4 opt6 iface acc ip) := by
  cases hacc : addrAccept opt4 opt6 ip with
  | none =>
    rw [ifAddrsStep, hacc]
    exact hinv
  | some ipv =>
    obtain ⟨hlb, hll, hfam⟩ := addrAccept_spec opt4 opt6 ip ipv hacc
    rw [ifAddrsStep, hacc]
    dsimp only
    cases h4 : (ipTo4 ip).isSome with
    | true =>
      have hfam4 : AddrIs4 ipv = true := by rw [hfam]; exact h4
      cases hseen : acc.if4seen.contains iface.ifindex with
      | true =>
        show IfAccInv interfaces opt4 opt6
          { acc with addrs := acc.addrs ++ [⟨ipv, 5353, iface.name⟩] }
        have hmem4 : ∃ i, i ∈ acc.if4 ∧ i.ifindex = iface.ifindex := by
          have : iface.ifindex ∈ acc.if4seen := by
            simpa using hseen
          rw [hinv.seen4] at this
          rcases List.mem_map.mp this with ⟨i, hi, hieq⟩
          exact ⟨i, hi, hieq⟩
        refine ⟨?_, hinv.seen4, hinv.seen6, hinv.nodup4, hinv.nodup6, hinv.sub4,
          hinv.sub6, hinv.used4, hinv.used6⟩
        intro a ha
        rcases List.mem_append.mp ha with ha | ha
        · exact hinv.addrsOk a ha
        · have haeq : a = ⟨ipv, 5353, iface.name⟩ := by simpa using ha
          subst haeq
          refine ⟨hlb, hll, fun _ => ?_, fun hf => ?_⟩
          · rcases hmem4 with ⟨i, hi, hieq⟩
            have : i = iface :=
              huniq i (hinv.sub4 i hi) iface hiface hieq
            exact ⟨i, hi, by rw [this]⟩
          · rw [hfam4] at hf; cases hf
      | false =>
        show IfAccInv interfaces opt4 opt6
          { acc with addrs := acc.addrs ++ [⟨ipv, 5353, iface.name⟩],
                     if4 := acc.if4 ++ [iface],
                     if4seen := acc.if4seen ++ [iface.ifindex] }
        have hnotmem : iface.ifindex ∉ acc.if4.map GoInterface.ifindex := by
          rw [← hinv.seen4]
          simpa using hseen
        refine ⟨?_, ?_, hinv.seen6, ?_, hinv.nodup6, ?_, hinv.sub6, ?_, hinv.used6⟩
        · intro a ha
          rcases List.mem_append.mp ha with ha | ha
          · rcases hinv.addrsOk a ha with ⟨p1, p2, p3, p4⟩
            refine ⟨p1, p2, fun hv => ?_, p4⟩
            rcases p3 hv with ⟨i, hi, hieq⟩
            exact ⟨i, List.mem_append_left _ hi, hieq⟩
          · have haeq : a = ⟨ipv, 5353, iface.name⟩ := by simpa using ha
            subst haeq
            refine ⟨hlb, hll, fun _ => ?_, fun hf => ?_⟩
            · exact ⟨iface, List.mem_append_right _ (List.mem_singleton_self _), rfl⟩
            · rw [hfam4] at hf; cases hf
        · rw [List.map_append, ← hinv.seen4]; rfl
        · rw [List.map_append]
          refine List.nodup_append.mpr ⟨hinv.nodup4, List.nodup_singleton _, ?_⟩
          intro x hx hx1
          rcases List.mem_singleton.mp hx1 with rfl
          exact hnotmem hx
        · intro i hi
          rcases List.mem_append.mp hi with hi | hi
          · exact hinv.sub4 i hi
          · rcases List.mem_singleton.mp hi with rfl
            exact hiface
        · intro i hi
          rcases List.mem_append.mp hi with hi | hi
          · exact hinv.used4 i hi
          · rcases List.mem_singleton.mp hi with rfl
            exact ⟨ip, hip, by rw [hacc]; rfl, h4⟩
    | false =>
      have hfam6 : AddrIs4 ipv = false := by rw [hfam]; exact h4
      cases hseen : acc.if6seen.contains iface.ifindex with
      | true =>
        show IfAccInv interfaces opt4 opt6
          { acc with addrs := acc.addrs ++ [⟨ipv, 5353, iface.name⟩] }
        have hmem6 : ∃ i, i ∈ acc.if6 ∧ i.ifindex = iface.ifindex := by
          have : iface.ifindex ∈ acc.if6seen := by
            simpa using hseen
          rw [hinv.seen6] at this
          rcases List.mem_map.mp this with ⟨i, hi, hieq⟩
          exact ⟨i, hi, hieq⟩
        refine ⟨?_, hinv.seen4, hinv.seen6, hinv.nodup4, hinv.nodup6, hinv.sub4,
          hinv.sub6, hinv.used4, hinv.used6⟩
        intro a ha
        rcases List.mem_append.mp ha with ha | ha
        · exact hinv.addrsOk a ha
        · have haeq : a = ⟨ipv, 5353, iface.name⟩ := by simpa using ha
          subst haeq
          refine ⟨hlb, hll, fun hf => ?_, fun _ => ?_⟩
          · rw [hfam6] at hf; cases hf
          · rcases hmem6 with ⟨i, hi, hieq⟩
            have : i = iface :=
              huniq i (hinv.sub6 i hi) iface hiface hieq
            exact ⟨i, hi, by rw [this]⟩
      | false =>
        show IfAccInv interfaces opt4 opt6
          { acc with addrs := acc.addrs ++ [⟨ipv, 5353, iface.name⟩],
                     if6 := acc.if6 ++ [iface],
                     if6seen := acc.if6seen ++ [iface.ifindex] }
        have hnotmem : iface.ifindex ∉ acc.if6.map GoInterface.ifindex := by
          rw [← hinv.seen6]
          simpa using hseen
        refine ⟨?_, hinv.seen4, ?_, hinv.nodup4, ?_, hinv.sub4, ?_, hinv.used4, ?_⟩
        · intro a ha
          rcases List.mem_append.mp ha with ha | ha
          · rcases hinv.addrsOk a ha with ⟨p1, p2, p3, p4⟩
            refine ⟨p1, p2, p3, fun hv => ?_⟩
            rcases p4 hv with ⟨i, hi, hieq⟩
            exact ⟨i, List.mem_append_left _ hi, hieq⟩
          · have haeq : a = ⟨ipv, 5353, iface.name⟩ := by simpa using ha
            subst haeq
            refine ⟨hlb, hll, fun hf => ?_, fun _ => ?_⟩
            · rw [hfam6] at hf; cases hf
            · exact ⟨iface, List.mem_append_right _ (List.mem_singleton_self _), rfl⟩
        · rw [List.map_append, ← hinv.seen6]; rfl
        · rw [List.map_append]
          refine List.nodup_append.mpr ⟨hinv.nodup6, List.nodup_singleton _, ?_⟩
          intro x hx hx1
          rcases List.mem_singleton.mp hx1 with rfl
          exact hnotmem hx
        · intro i hi
          rcases List.mem_append.mp hi with hi | hi
          · exact hinv.sub6 i hi
          · rcases List.mem_singleton.mp hi with rfl
            exact hiface
        · intro i hi
          rcases List.mem_append.mp hi with hi | hi
          · exact hinv.used6 i hi
          · rcases List.mem_singleton.mp hi with rfl
            exact ⟨ip, hip, by rw [hacc]; rfl, h4⟩

theorem ifAddrsStep_listInv (opt4 opt6 : Bool) (iface : GoInterface) (acc : IfAcc)
    (ip : List Nat) (hip : ip ∈ iface.ifaddrs) (hinv : IfListInv opt4 opt6 acc) :
    IfListInv opt4 opt6 (ifAddrsStep opt4 opt6 iface acc ip) := by
  cases hacc : addrAccept opt4 opt6 ip with
  | none =>
    rw [ifAddrsStep, hacc]
    exact hinv
  | some ipv =>
    rw [ifAddrsStep, hacc]
    dsimp only
    cases h4 : (ipTo4 ip).isSome with
    | true =>
      cases hseen : acc.if4seen.contains iface.ifindex with
      | true =>
        exact ⟨hinv.seen4, hinv.seen6, hinv.nodup4, hinv.nodup6, hinv.used4,
          hinv.used6⟩
      | false =>
        show IfListInv opt4 opt6
          { acc with addrs := acc.addrs ++ [⟨ipv, 5353, iface.name⟩],
                     if4 := acc.if4 ++ [iface],
                     if4seen := acc.if4seen ++ [iface.ifindex] }
        have hnotmem : iface.ifindex ∉ acc.if4.map GoInterface.ifindex := by
          rw [← hinv.seen4]
          simpa using hseen
        refine ⟨?_, hinv.seen6, ?_, hinv.nodup6, ?_, hinv.used6⟩
        · rw [List.map_append, ← hinv.seen4]; rfl
        · rw [List.map_append]
          refine List.nodup_append.mpr ⟨hinv.nodup4, List.nodup_singleton _, ?_⟩
          intro x hx hx1
          rcases List.mem_singleton.mp hx1 with rfl
          exact hnotmem hx
        · intro i hi
          rcases List.mem_append.mp hi with hi | hi
          · exact hinv.used4 i hi
          · rcases List.mem_singleton.mp hi with rfl
            exact ⟨ip, hip, by rw [hacc]; rfl, h4⟩
    | false =>
      cases hseen : acc.if6seen.contains iface.ifindex with
      | true =>
        exact ⟨hinv.seen4, hinv.seen6, hinv.nodup4, hinv.nodup6, hinv.used4,
          hinv.used6⟩
      | false =>
        show IfListInv opt4 opt6
          { acc with addrs := acc.addrs ++ [⟨ipv, 5353, iface.name⟩],
                     if6 := acc.if6 ++ [iface],
                     if6seen := acc.if6seen ++ [iface.ifindex] }
        have hnotmem : iface.ifindex ∉ acc.if6.map GoInterface.ifindex := by
          rw [← hinv.seen6]
          simpa using hseen
        refine ⟨hinv.seen4, ?_, hinv.nodup4, ?_, hinv.used4, ?_⟩
        · rw [List.map_append, ← hinv.seen6]; rfl
        · rw [List.map_append]
          refine List.nodup_append.mpr ⟨hinv.nodup6, List.nodup_singleton _, ?_⟩
          intro x hx hx1
          rcases List.mem_singleton.mp hx1 with rfl
          exact hnotmem hx
        · intro i hi
          rcases List.mem_append.mp hi with hi | hi
          · exact hinv.used6 i hi
          · rcases List.mem_singleton.mp hi with rfl
            exact ⟨ip, hip, by rw [hacc]; rfl, h4⟩

theorem ifAddrsIface_inv (interfaces : List GoInterface) (opt4 opt6 : Bool)
    (iface : GoInterface)
    (huniq : ∀ i ∈ interfaces, ∀ j ∈ interfaces, i.ifindex = j.ifindex → i = j)
    (hiface : iface ∈ interfaces) :
    ∀ (ips : List (List Nat)) (acc : IfAcc), (∀ x ∈ ips, x ∈ iface.ifaddrs) →
      IfAccInv interfaces opt4 opt6 acc →
      IfAccInv interfaces opt4 opt6 (ips.foldl (ifAddrsStep opt4 opt6 iface) acc) := by
  intro ips
  induction ips with
  | nil => intro acc _ hinv; exact hinv
  | cons ip ips ih =>
    intro acc hsub hinv
    exact ih _ (fun x hx => hsub x (List.mem_cons_of_mem _ hx))
      (ifAddrsStep_inv interfaces opt4 opt6 iface acc ip huniq hiface
        (hsub ip (List.mem_cons_self _ _)) hinv)

theorem ifAddrsIface_listInv (opt4 opt6 : Bool) (iface : GoInterface) :
    ∀ (ips : List (List Nat)) (acc : IfAcc), (∀ x ∈ ips, x ∈ iface.ifaddrs) →
      IfListInv opt4 opt6 acc →
      IfListInv opt4 opt6 (ips.foldl (ifAddrsStep opt4 opt6 iface) acc) := by
  intro ips
  induction ips with
  | nil => intro acc _ hinv; exact hinv
  | cons ip ips ih =>
    intro acc hsub hinv
    exact ih _ (fun x hx => hsub x (List.mem_cons_of_mem _ hx))
      (ifAddrsStep_listInv opt4 opt6 iface acc ip
        (hsub ip (List.mem_cons_self _ _)) hinv)

theorem ifAddrs_fold_inv (interfaces : List GoInterface) (opt4 opt6 : Bool)
    (huniq : ∀ i ∈ interfaces, ∀ j ∈ interfaces, i.ifindex = j.ifindex → i = j) :
    ∀ (sel : List GoInterface) (acc : IfAcc), (∀ i ∈ sel, i ∈ interfaces) →
      IfAccInv interfaces opt4 opt6 acc →
      IfAccInv interfaces opt4 opt6 (sel.foldl (ifAddrsIface opt4 opt6) acc) := by
  intro sel
  induction sel with
  | nil => intro acc _ hinv; exact hinv
  | cons iface rest ih =>
    intro acc hsub hinv
    exact ih _ (fun i hi => hsub i (List.mem_cons_of_mem _ hi))
      (ifAddrsIface_inv interfaces opt4 opt6 iface huniq
        (hsub iface (List.mem_cons_self _ _)) iface.ifaddrs acc (fun _ hx => hx) hinv)

theorem ifAddrs_fold_listInv (opt4 opt6 : Bool) :
    ∀ (sel : List GoInterface) (acc : IfAcc), IfListInv opt4 opt6 acc →
      IfListInv opt4 opt6 (sel.foldl (ifAddrsIface opt4 opt6) acc) := by
  intro sel
  induction sel with
  | nil => intro acc hinv; exact hinv
  | cons iface rest ih =>
    intro acc hinv
    exact ih _ (ifAddrsIface_listInv opt4 opt6 iface iface.ifaddrs acc
      (fun _ hx => hx) hinv)

theorem ifAccInv_init (interfaces : List GoInterface) (opt4 opt6 : Bool) :
    IfAccInv interfaces opt4 opt6 ⟨[], [], [], [], []⟩ := by
  refine ⟨?_, rfl, rfl, List.nodup_nil, List.nodup_nil, ?_, ?_, ?_, ?_⟩ <;>
    intro x hx <;> exact absurd hx (List.not_mem_nil x)

theorem ifListInv_init (opt4 opt6 : Bool) :
    IfListInv opt4 opt6 ⟨[], [], [], [], []⟩ := by
  refine ⟨rfl, rfl, List.nodup_nil, List.nodup_nil, ?_, ?_⟩ <;>
    intro x hx <;> exact absurd hx (List.not_mem_nil x)

theorem ifaceSelect_subset (nm : String) :
    ∀ (l sel : List GoInterface), ifaceSelect nm l = some sel →
      ∀ i ∈ sel, i ∈ l := by
  intro l
  induction l with
  | nil => intro sel h; cases h
  | cons x xs ih =>
    intro sel h
    rw [ifaceSelect] at h
    by_cases hx : x.name = nm
    · rw [if_pos hx] at h
      have hs : sel = [x] := (Option.some.inj h).symm
      subst hs
      intro i hi
      rcases List.mem_singleton.mp hi with rfl
      exact List.mem_cons_self _ _
    · rw [if_neg hx] at h
      intro i hi
      exact List.mem_cons_of_mem _ (ih sel h i hi)

theorem IfAddrs_acc (opts : DiscoverOpts) (interfaces : List GoInterface)
    (addrs : List UDPAddr) (if4 if6 : List GoInterface)
    (h : IfAddrs opts interfaces = some (addrs, if4, if6)) :
    ∃ (sel : List GoInterface) (acc : IfAcc), (∀ i ∈ sel, i ∈ interfaces) ∧
      acc = sel.foldl (ifAddrsIface opts.opt4 opts.opt6) ⟨[], [], [], [], []⟩ ∧
      acc.addrs = addrs ∧ acc.if4 = if4 ∧ acc.if6 = if6 := by
  rw [IfAddrs] at h
  cases hsel : (if opts.optIface = "" then some interfaces
      else ifaceSelect opts.optIface interfaces) with
  | none => rw [hsel] at h; cases h
  | some selected =>
    rw [hsel] at h
    dsimp only at h
    by_cases he : (selected.foldl (ifAddrsIface opts.opt4 opts.opt6)
        ⟨[], [], [], [], []⟩).addrs.isEmpty = true
    · rw [if_pos he] at h; cases h
    · rw [if_neg he] at h
      have heq := Option.some.inj h
      have hsub : ∀ i ∈ selected, i ∈ interfaces := by
        by_cases hio : opts.optIface = ""
        · rw [if_pos hio] at hsel
          have : interfaces = selected := Option.some.inj hsel
          rw [← this]
          exact fun i hi => hi
        · rw [if_neg hio] at hsel
          exact ifaceSelect_subset opts.optIface interfaces selected hsel
      refine ⟨selected, _, hsub, rfl, ?_, ?_, ?_⟩
      · exact congrArg Prod.fst heq
      · exact congrArg (fun p => p.2.1) heq
      · exact congrArg (fun p => p.2.2) heq

/-- C5: whenever address discovery succeeds (and the OS-provided
interface indices identify interfaces uniquely, as `net.Interfaces()`
guarantees), no returned source address is loopback, every returned
IPv6 address is link-local unicast, and every returned address carries
the zone of an interface present in the interface list of its address
family. -/
theorem c5_discovered_addresses_filtered :
    ∀ (opts : DiscoverOpts) (interfaces : List GoInterface)
      (addrs : List UDPAddr) (if4 if6 : List GoInterface),
      (∀ i ∈ interfaces, ∀ j ∈ interfaces, i.ifindex = j.ifindex → i = j) →
      IfAddrs opts interfaces = some (addrs, if4, if6) →
      ∀ a ∈ addrs,
        isLoopback a.ip = false ∧
        (AddrIs4 a.ip = false → isLinkLocalUnicast a.ip = true) ∧
        (AddrIs4 a.ip = true → ∃ i, i ∈ if4 ∧ i.name = a.zone) ∧
        (AddrIs4 a.ip = false → ∃ i, i ∈ if6 ∧ i.name = a.zone) := by
  intro opts interfaces addrs if4 if6 huniq h a ha
  obtain ⟨sel, acc, hsub, hacc, h1, h2, h3⟩ :=
    IfAddrs_acc opts interfaces addrs if4 if6 h
  have hinv : IfAccInv interfaces opts.opt4 opts.opt6 acc := by
    rw [hacc]
    exact ifAddrs_fold_inv interfaces opts.opt4 opts.opt6 huniq sel _ hsub
      (ifAccInv_init interfaces opts.opt4 opts.opt6)
  rw [← h2, ← h3]
  exact hinv.addrsOk a (by rw [h1]; exact ha)

/-- Witness for C5: on a two-interface host with a loopback-only
interface (dropped) and a dual-stack interface, both families enabled
and no name filter, the discovered IPv4 address belongs to an
interface of the returned v4 list. -/
theorem c5_witness :
    ∃ i, i ∈ [GoInterface.mk 2 "eth0"
        [[192, 168, 1, 2], [254, 128, 0, 0, 0, 0, 0, 0, 0, 0, 0, 0, 0, 0, 0, 9]]] ∧
      i.name = (UDPAddr.mk [192, 168, 1, 2] 5353 "eth0").zone :=
  (c5_discovered_addresses_filtered ⟨"", true, true⟩
      [⟨1, "lo", [[127, 0, 0, 1]]⟩,
       ⟨2, "eth0", [[192, 168, 1, 2], [254, 128, 0, 0, 0, 0, 0, 0, 0, 0, 0, 0, 0, 0, 0, 9]]⟩]
      [⟨[192, 168, 1, 2], 5353, "eth0"⟩,
       ⟨[254, 128, 0, 0, 0, 0, 0, 0, 0, 0, 0, 0, 0, 0, 0, 9], 5353, "eth0"⟩]
      [⟨2, "eth0", [[192, 168, 1, 2], [254, 128, 0, 0, 0, 0, 0, 0, 0, 0, 0, 0, 0, 0, 0, 9]]⟩]
      [⟨2, "eth0", [[192, 168, 1, 2], [254, 128, 0, 0, 0, 0, 0, 0, 0, 0, 0, 0, 0, 0, 0, 9]]⟩]
      (by decide) (by decide)
      ⟨[192, 168, 1, 2], 5353, "eth0"⟩ (by decide)).2.2.1 (by decide)

/-- C6: whenever address discovery succeeds, each interface occurs at
most once in `v4Interfaces` and at most once in `v6Interfaces` (the
index lists are duplicate-free), and an interface occurs in a family's
list only if at least one of its own addresses of that family survived
the filter. -/
theorem c6_interface_lists_once_and_used :
    ∀ (opts : DiscoverOpts) (interfaces : List GoInterface)
      (addrs : List UDPAddr) (if4 if6 : List GoInterface),
      IfAddrs opts interfaces = some (addrs, if4, if6) →
      (if4.map GoInterface.ifindex).Nodup ∧
      (if6.map GoInterface.ifindex).Nodup ∧
      (∀ i ∈ if4, ∃ ipa, ipa ∈ i.ifaddrs ∧
        (addrAccept opts.opt4 opts.opt6 ipa).isSome = true ∧ AddrIs4 ipa = true) ∧
      (∀ i ∈ if6, ∃ ipa, ipa ∈ i.ifaddrs ∧
        (addrAccept opts.opt4 opts.opt6 ipa).isSome = true ∧ AddrIs4 ipa = false) := by
  intro opts interfaces addrs if4 if6 h
  obtain ⟨sel, acc, _, hacc, _, h2, h3⟩ :=
    IfAddrs_acc opts interfaces addrs if4 if6 h
  have hinv : IfListInv opts.opt4 opts.opt6 acc := by
    rw [hacc]
    exact ifAddrs_fold_listInv opts.opt4 opts.opt6 sel _
      (ifListInv_init opts.opt4 opts.opt6)
  rw [← h2, ← h3]
  exact ⟨hinv.nodup4, hinv.nodup6, hinv.used4, hinv.used6⟩

/-- Witness for C6: an interface owning two IPv4 addresses appears
once in the v4 list, with a surviving v4 address. -/
theorem c6_witness :
    (([GoInterface.mk 7 "wlan0" [[10, 0, 0, 5], [10, 0, 0, 6]]].map
        GoInterface.ifindex).Nodup ∧
      (([] : List GoInterface).map GoInterface.ifindex).Nodup ∧
      (∀ i ∈ [GoInterface.mk 7 "wlan0" [[10, 0, 0, 5], [10, 0, 0, 6]]],
        ∃ ipa, ipa ∈ i.ifaddrs ∧ (addrAccept true false ipa).isSome = true ∧
          AddrIs4 ipa = true) ∧
      (∀ i ∈ ([] : List GoInterface),
        ∃ ipa, ipa ∈ i.ifaddrs ∧ (addrAccept true false ipa).isSome = true ∧
          AddrIs4 ipa = false)) :=
  c6_interface_lists_once_and_used ⟨"wlan0", true, false⟩
    [⟨7, "wlan0", [[10, 0, 0, 5], [10, 0, 0, 6]]⟩]
    [⟨[10, 0, 0, 5], 5353, "wlan0"⟩, ⟨[10, 0, 0, 6], 5353, "wlan0"⟩] _ _ (by decide)

end Mcdig
